import Mathlib

/-!
Shallow embedding of the gopkgdoc documentation-resolution and caching
pipeline (gorilla/gorilla.github.io sources: doc/doc.go, util.go,
package.go, and the doc-package HTTP helpers), together with theorems
settling the specification claims about it.

Strings are modelled by Lean `String` / `List Char`; bytes by `Nat`;
fallible operations by `Option` / `Except`; the memcache and datastore
tiers by explicit store values threaded through the functions.
-/

namespace Gopkgdoc

/-- Models Go's `unicode.IsSpace`: the Unicode White_Space code points
(`'\t'`..`'\r'`, space, NEL, NBSP, and the higher space code points). -/
def goIsSpace (r : Char) : Bool :=
  (9 ≤ r.toNat && r.toNat ≤ 13) || r.toNat == 32 || r.toNat == 0x85 || r.toNat == 0xA0 ||
  r.toNat == 0x1680 || (0x2000 ≤ r.toNat && r.toNat ≤ 0x200A) ||
  r.toNat == 0x2028 || r.toNat == 0x2029 || r.toNat == 0x202F || r.toNat == 0x205F ||
  r.toNat == 0x3000

/-- The reserved punctuation runes rejected by `ValidRemotePath`
(the Go string literal `"!\"#$%&'()*,:;<=>?[]^`+"`"+`{|}"`; apostrophe is
code 39, backtick 96, the braces 123 and 125). -/
def reservedPunct : List Char :=
  ['!', '"', '#', '$', '%', '&', Char.ofNat 39, '(', ')', '*', ',', ':', ';',
   '<', '=', '>', '?', '[', ']', '^', Char.ofNat 96, Char.ofNat 123, '|', Char.ofNat 125]

/-- Models the per-rune rejection tests in `ValidRemotePath` (doc/doc.go):
`utf8.RuneError`, control characters, DEL, backslash, whitespace and the
reserved punctuation. -/
def badRune (r : Char) : Bool :=
  r.toNat == 0xFFFD || r.toNat < 0x20 || r.toNat == 0x7f || r == '\\' ||
  goIsSpace r || reservedPunct.contains r

/-- Models Go's `strings.Split` on a single separator character. -/
def splitChar (sep : Char) : List Char → List (List Char)
  | [] => [[]]
  | c :: cs =>
    match splitChar sep cs with
    | [] => [[]]
    | p :: ps => if c = sep then [] :: p :: ps else (c :: p) :: ps

/-- Characters matched by the character class `[-A-Za-z0-9]` of the
`validHost` regular expression in doc/doc.go. -/
def isHostChar (c : Char) : Bool :=
  c == '-' || ('A' ≤ c && c ≤ 'Z') || ('a' ≤ c && c ≤ 'z') || ('0' ≤ c && c ≤ '9')

/-- Models the anchored prefix match of the regular expression
`^[-A-Za-z0-9]+(?:\.[-A-Za-z0-9]+)+` (doc/doc.go `validHost`): a nonempty
label run, then a dot followed by at least one further label character.
Because the regexp only has to match a prefix, one dot-separated pair
suffices. -/
def validHost (part : List Char) : Bool :=
  let run := part.takeWhile isHostChar
  !run.isEmpty &&
    match part.drop run.length with
    | '.' :: d :: _ => isHostChar d
    | _ => false

/-- The `badTLDs` list from doc/doc.go. -/
def badTLDs : List String := [".png", ".html", ".jpg", ".ico", ".txt", ".xml", ".go", ".gif"]

/-- Models `ValidRemotePath` (doc/doc.go): per-rune checks, then the first
path segment must match `validHost` and not end in a bad suffix, and every
later segment must be nonempty, not start with '.' or '_', and not equal
"testdata". -/
def ValidRemotePath (importPath : String) : Bool :=
  importPath.data.all (fun r => !badRune r) &&
    match splitChar '/' importPath.data with
    | [] => false
    | p0 :: rest =>
      validHost p0 &&
      badTLDs.all (fun tld => !(tld.data.isSuffixOf p0)) &&
      rest.all (fun part =>
        !(part.isEmpty || part.head? == some '.' || part.head? == some '_' ||
          part == "testdata".data))

/-! Memcache (ephemeral tier) model: util.go. -/

/-- A memcache item as used by util.go: a value blob with an expiration. -/
structure McItem where
  value : List Nat
  expiration : Nat
  deriving DecidableEq, Repr

/-- One nanosecond-count minute, Go's `time.Minute`. -/
def timeMinute : Nat := 60 * 1000000000

/-- Result of `cacheGet` (util.go): either a cache miss (`memcache.ErrCacheMiss`)
or the value bytes handed to the gob decoder. -/
inductive CacheGetRes where
  | miss
  | decoded (bytes : List Nat)
  deriving DecidableEq, Repr

/-- Models `cacheGet` (util.go): a missing key is a miss, a stored value of
exactly one zero byte is the deleted sentinel and is reported as a miss,
and any other value is passed to the decoder. -/
def cacheGet (store : String → Option McItem) (key : String) : CacheGetRes :=
  match store key with
  | none => .miss
  | some item => if item.value = [0] then .miss else .decoded item.value

/-- Models `cacheClear` (util.go): each key is overwritten with the one-byte
tombstone value `[0]` and a two-minute expiration. -/
def cacheClear (store : String → Option McItem) (keys : List String) :
    String → Option McItem :=
  fun k => if keys.contains k then some ⟨[0], 2 * timeMinute⟩ else store k

/-- Errors reported by the memcache store operations used in `cacheSafeSet`. -/
inductive McErr where
  | casConflict
  | notStored
  | serverErr
  deriving DecidableEq, Repr, Fintype

/-- Errors `cacheSafeSet` can return: a gob encoding failure or a store error
it does not treat as success. -/
inductive SafeSetErr where
  | encodeFail
  | store (e : McErr)
  deriving DecidableEq, Repr

/-- Models `cacheSafeSet` (util.go) as a function of the encoder outcome, of
whether the caller had observed a prior value (`item.Value != nil`), and of
the responses of the `CompareAndSwap` and `Add` store calls (`none` meaning
success). A CAS conflict is success; a CAS `ErrNotStored` falls back to
`Add`; an `Add` `ErrNotStored` is success. -/
def cacheSafeSet (encodeOk : Bool) (hasPrior : Bool)
    (casResult addResult : Option McErr) : Option SafeSetErr :=
  if !encodeOk then some .encodeFail
  else
    let addStep : Option SafeSetErr :=
      match addResult with
      | some .notStored => none
      | r => r.map .store
    if hasPrior then
      match casResult with
      | some .casConflict => none
      | some .notStored => addStep
      | r => r.map .store
    else addStep

/-- Models `memcache.Add` on a single-key store: stores the value only when
the key is absent, otherwise reports `ErrNotStored`. -/
def mcAdd (store : Option (List Nat)) (v : List Nat) :
    Option (List Nat) × Option McErr :=
  match store with
  | none => (some v, none)
  | some w => (some w, some .notStored)

/-! Index-record projection and conditional datastore update: package.go. -/

/-- The documentation record `doc.Package` (the fields updatePackage and the
truncation path consume; declaration lists carry opaque payloads). -/
structure DocPackage where
  importPath : String
  projectRoot : String
  projectName : String
  projectURL : String
  etag : String
  name : String
  synopsis : String
  doc : String
  isCmd : Bool
  errors : List String
  consts : List String
  vars : List String
  funcs : List String
  types : List String
  deriving DecidableEq, Repr

/-- The index record `Package` (package.go). -/
structure Package where
  importPath : String
  synopsis : String
  packageName : String
  isCmd : Bool
  hide : Bool
  indexTokens : List String
  deriving DecidableEq, Repr

/-- Models `(*Package).equal` (package.go): synopsis, hide, isCmd and the
index-token list compared length-first then element-wise. -/
def Package.equal (pkg other : Package) : Bool :=
  pkg.synopsis == other.synopsis &&
  pkg.hide == other.hide &&
  pkg.isCmd == other.isCmd &&
  pkg.indexTokens.length == other.indexTokens.length &&
  (List.zip pkg.indexTokens other.indexTokens).all fun p => p.1 == p.2

/-- First index of a character in a list, `none` when absent: models
Go's `strings.Index(s, ".")` result (`-1` becoming `none`). -/
def firstIdx (c : Char) : List Char → Option Nat
  | [] => none
  | d :: ds => if d = c then some 0 else (firstIdx c ds).map (· + 1)

/-- Models `path.Split`'s file component: everything after the final '/'. -/
def pathSplitName (s : String) : String :=
  String.mk ((s.data.reverse.takeWhile fun c => c ≠ '/').reverse)

/-- The legacy mirror root whose packages updatePackage always hides. -/
def legacyGoRoot : String := "code.google.com/p/go/"

/-- Models Go's `strings.ToLower` on the strings the index tokens are built
from: lower-case every rune. -/
def goToLower (s : String) : String := String.mk (s.data.map Char.toLower)

/-- The command-visibility test in `updatePackage` (package.go line 147-148):
a command is hidden when its synopsis is empty, its doc text has no '.', or
the first '.' is the final character. -/
def cmdHide (synopsis doc : String) : Bool :=
  synopsis == "" || (firstIdx '.' doc.data).isNone ||
    firstIdx '.' doc.data == some (doc.data.length - 1)

/-- Models the index-record derivation in `updatePackage` (package.go lines
129-173): `none` when the documentation record is absent or has no package
name, otherwise the `Package` with the hide flag and index tokens computed
by the rule cascade. -/
def makePkg (importPath : String) (pdoc : Option DocPackage) : Option Package :=
  match pdoc with
  | none => none
  | some pdoc =>
    if pdoc.name = "" then none
    else
      let base :=
        if pdoc.projectRoot ≠ "" then [goToLower pdoc.projectRoot] else []
      let ht : Bool × List String :=
        if legacyGoRoot.data.isPrefixOf importPath.data then
          (true, base)
        else if pdoc.projectRoot = "" then
          (true, base ++ [goToLower pdoc.name])
        else if pdoc.isCmd then
          if cmdHide pdoc.synopsis pdoc.doc then (true, base)
          else (false, base ++ [pathSplitName (goToLower pdoc.importPath)])
        else
          if pdoc.consts.isEmpty && pdoc.funcs.isEmpty &&
              pdoc.types.isEmpty && pdoc.vars.isEmpty then (true, base)
          else
            let seg := pathSplitName (goToLower pdoc.importPath)
            let nm := goToLower pdoc.name
            (false, base ++ if nm ≠ seg then [seg, nm] else [seg])
      some { importPath := importPath
             synopsis := pdoc.synopsis
             packageName := pdoc.name
             isCmd := pdoc.isCmd
             hide := ht.1
             indexTokens := ht.2 }

/-- Effects of the conditional index update in `updatePackage` (package.go
lines 221-262): an optional datastore `Put`, an optional `Delete`, and
whether memcache invalidation runs afterwards. -/
structure IndexEffect where
  put : Option Package
  del : Bool
  invalidate : Bool
  deriving DecidableEq, Repr

/-- Models the conditional index update in `updatePackage`: compare the newly
derived record with the stored one; write (and invalidate) only when the key
is newly added, deleted, or the records are unequal. -/
def indexUpdate (stored newPkg : Option Package) : IndexEffect :=
  match stored, newPkg with
  | none, none => ⟨none, false, false⟩
  | none, some p => ⟨some p, false, true⟩
  | some _, none => ⟨none, true, true⟩
  | some s, some p =>
    if p.equal s then ⟨none, false, false⟩ else ⟨some p, false, true⟩

/-! Serialized doc blob and size-triggered truncation: package.go lines 183-208. -/

/-- Length-prefixed byte encoding of a string field, used by the
serialization model. -/
def encodeStr (s : String) : List Nat :=
  s.data.length :: s.data.map Char.toNat

/-- Length-prefixed encoding of a list of string payloads. -/
def encodeList (l : List String) : List Nat :=
  l.length :: l.foldr (fun s acc => encodeStr s ++ acc) []

/-- Models `encoding/gob` serialization of a documentation record: every
field is written out, so the byte size includes the full doc text and
every declaration payload. -/
def gobEncode (p : DocPackage) : List Nat :=
  encodeStr p.importPath ++ encodeStr p.projectRoot ++ encodeStr p.projectName ++
  encodeStr p.projectURL ++ encodeStr p.etag ++ encodeStr p.name ++
  encodeStr p.synopsis ++ encodeStr p.doc ++ [if p.isCmd then 1 else 0] ++
  encodeList p.errors ++ encodeList p.consts ++ encodeList p.vars ++
  encodeList p.funcs ++ encodeList p.types

/-- The serialized-size threshold in `updatePackage` (package.go). -/
def docSizeLimit : Nat := 800000

/-- The truncation applied by `updatePackage` when the serialized record is
too large: append the notice to the error list and clear the vars, funcs,
types and consts. -/
def truncateDoc (p : DocPackage) : DocPackage :=
  { p with errors := p.errors ++ ["Documentation truncated."],
           vars := [], funcs := [], types := [], consts := [] }

/-- Models the doc-blob store step of `updatePackage` (package.go lines
183-208): serialize; when over the threshold, truncate and re-serialize;
return the bytes written to the datastore and the record they encode. -/
def storeDocBlob (pdoc : DocPackage) : List Nat × DocPackage :=
  let buf := gobEncode pdoc
  if buf.length > docSizeLimit then
    let p2 := truncateDoc pdoc
    (gobEncode p2, p2)
  else
    (buf, pdoc)

/-! Conditional HTTP fetching: the doc-package HTTP helpers
(src/unnamed/part_002). -/

/-- The error taxonomy of the doc package: `ErrPackageNotFound`,
`ErrPackageNotModified`, and `GetError` carrying the remote host. -/
inductive DocErr where
  | notFound
  | notModified
  | getError (host : String)
  deriving DecidableEq, Repr

/-- An HTTP response as consumed by the fetch helpers: status code, the
`Etag` header (empty string when absent, as `Header.Get` reports), and the
body bytes. -/
structure HttpResp where
  status : Nat
  etagHeader : String
  body : List Nat
  deriving DecidableEq, Repr

/-- The `([]byte, string, error)` triple returned by the conditional fetch
helpers; `body = none` models a nil byte slice. -/
structure FetchTriple where
  body : Option (List Nat)
  etag : String
  err : Option DocErr
  deriving DecidableEq, Repr

/-- The `If-None-Match` header value sent by `httpGetBytesNoneMatch`: the
saved ETag surrounded by double quotes. -/
def noneMatchHeader (etag : String) : String := "\"" ++ etag ++ "\""

/-- Models the ETag-header handling of `httpGetBytesNoneMatch`: strip the
surrounding quotes, or yield the empty string when the header is absent or
unquoted. -/
def stripQuotes (etag : String) : String :=
  if 2 ≤ etag.data.length ∧ etag.data.head? = some '"' ∧ etag.data.getLast? = some '"' then
    String.mk ((etag.data.drop 1).dropLast)
  else ""

/-- Models `httpGetBytesNoneMatch` (part_002): send the quoted saved ETag as
`If-None-Match` to the server (modelled as a function from that header value
to a connection failure or a response) and classify the outcome: 200 gives
the body and the quote-stripped server ETag, 404 `ErrPackageNotFound`, 304
`ErrPackageNotModified`, anything else a `GetError` with the remote host. -/
def httpGetBytesNoneMatch (host : String) (savedEtag : String)
    (server : String → Except Unit HttpResp) : FetchTriple :=
  match server (noneMatchHeader savedEtag) with
  | .error _ => ⟨none, "", some (.getError host)⟩
  | .ok resp =>
    let etag := stripQuotes resp.etagHeader
    if resp.status = 200 then ⟨some resp.body, etag, none⟩
    else if resp.status = 404 then ⟨none, "", some .notFound⟩
    else if resp.status = 304 then ⟨none, "", some .notModified⟩
    else ⟨none, "", some (.getError host)⟩

/-! An executable MD5 (crypto/md5 as used by `httpGetBytesCompare`), over
byte lists with 32-bit words as `Nat` reduced mod 2^32. -/

/-- Reduction modulo 2^32. -/
def b32 (x : Nat) : Nat := x % 4294967296

/-- Left rotation of a 32-bit word. -/
def rotl32 (x s : Nat) : Nat := b32 ((x <<< s) ||| (x >>> (32 - s)))

/-- The 64 MD5 sine-derived constants. -/
def md5K : List Nat :=
  [0xd76aa478, 0xe8c7b756, 0x242070db, 0xc1bdceee, 0xf57c0faf, 0x4787c62a, 0xa8304613, 0xfd469501,
   0x698098d8, 0x8b44f7af, 0xffff5bb1, 0x895cd7be, 0x6b901122, 0xfd987193, 0xa679438e, 0x49b40821,
   0xf61e2562, 0xc040b340, 0x265e5a51, 0xe9b6c7aa, 0xd62f105d, 0x02441453, 0xd8a1e681, 0xe7d3fbc8,
   0x21e1cde6, 0xc33707d6, 0xf4d50d87, 0x455a14ed, 0xa9e3e905, 0xfcefa3f8, 0x676f02d9, 0x8d2a4c8a,
   0xfffa3942, 0x8771f681, 0x6d9d6122, 0xfde5380c, 0xa4beea44, 0x4bdecfa9, 0xf6bb4b60, 0xbebfbc70,
   0x289b7ec6, 0xeaa127fa, 0xd4ef3085, 0x04881d05, 0xd9d4d039, 0xe6db99e5, 0x1fa27cf8, 0xc4ac5665,
   0xf4292244, 0x432aff97, 0xab9423a7, 0xfc93a039, 0x655b59c3, 0x8f0ccc92, 0xffeff47d, 0x85845dd1,
   0x6fa87e4f, 0xfe2ce6e0, 0xa3014314, 0x4e0811a1, 0xf7537e82, 0xbd3af235, 0x2ad7d2bb, 0xeb86d391]

/-- The 64 MD5 per-round left-rotation amounts. -/
def md5S : List Nat :=
  [7, 12, 17, 22, 7, 12, 17, 22, 7, 12, 17, 22, 7, 12, 17, 22,
   5, 9, 14, 20, 5, 9, 14, 20, 5, 9, 14, 20, 5, 9, 14, 20,
   4, 11, 16, 23, 4, 11, 16, 23, 4, 11, 16, 23, 4, 11, 16, 23,
   6, 10, 15, 21, 6, 10, 15, 21, 6, 10, 15, 21, 6, 10, 15, 21]

/-- MD5 padding: append 0x80, zero-fill to 56 mod 64, then the bit length
as eight little-endian bytes. -/
def md5Pad (msg : List Nat) : List Nat :=
  let l := msg.length
  let k := (56 + 64 - (l + 1) % 64) % 64
  msg ++ [0x80] ++ List.replicate k 0 ++
    ((List.range 8).map fun i => (8 * l) >>> (8 * i) % 256)

/-- Little-endian 32-bit word from (up to) four bytes. -/
def leWord (bytes : List Nat) : Nat :=
  match bytes with
  | [b0, b1, b2, b3] => b0 + 256 * b1 + 65536 * b2 + 16777216 * b3
  | _ => 0

/-- The sixteen message words of one 64-byte MD5 chunk. -/
def md5Words (chunk : List Nat) : List Nat :=
  (List.range 16).map fun j => leWord ((chunk.drop (4 * j)).take 4)

/-- One of the 64 MD5 mixing steps. -/
def md5Step (m : List Nat) (st : Nat × Nat × Nat × Nat) (i : Nat) :
    Nat × Nat × Nat × Nat :=
  let (a, b, c, d) := st
  let f :=
    if i < 16 then (b &&& c) ||| ((b ^^^ 0xffffffff) &&& d)
    else if i < 32 then (d &&& b) ||| ((d ^^^ 0xffffffff) &&& c)
    else if i < 48 then b ^^^ c ^^^ d
    else c ^^^ (b ||| (d ^^^ 0xffffffff))
  let g :=
    if i < 16 then i
    else if i < 32 then (5 * i + 1) % 16
    else if i < 48 then (3 * i + 5) % 16
    else (7 * i) % 16
  let rotated := rotl32 (b32 (a + f + md5K.getD i 0 + m.getD g 0)) (md5S.getD i 0)
  (d, b32 (b + rotated), b, c)

/-- Process one 64-byte chunk, adding the mixed state back in. -/
def md5Chunk (st : Nat × Nat × Nat × Nat) (chunk : List Nat) :
    Nat × Nat × Nat × Nat :=
  let m := md5Words chunk
  let (a, b, c, d) := (List.range 64).foldl (md5Step m) st
  (b32 (st.1 + a), b32 (st.2.1 + b), b32 (st.2.2.1 + c), b32 (st.2.2.2 + d))

/-- Iterate MD5 chunk processing over the padded message. -/
def md5Chunks (st : Nat × Nat × Nat × Nat) (bytes : List Nat) :
    Nat × Nat × Nat × Nat :=
  match bytes with
  | [] => st
  | b :: rest => md5Chunks (md5Chunk st ((b :: rest).take 64)) ((b :: rest).drop 64)
termination_by bytes.length
decreasing_by simp [List.length_drop]; omega

/-- Little-endian byte expansion of a 32-bit word. -/
def le4 (x : Nat) : List Nat :=
  [x % 256, x >>> 8 % 256, x >>> 16 % 256, x >>> 24 % 256]

/-- The 16-byte MD5 digest of a byte list. -/
def md5Bytes (msg : List Nat) : List Nat :=
  let (a, b, c, d) :=
    md5Chunks (0x67452301, 0xefcdab89, 0x98badcfe, 0x10325476) (md5Pad msg)
  le4 a ++ le4 b ++ le4 c ++ le4 d

/-- Lower-case hexadecimal digit for a value below 16. -/
def hexDigit (n : Nat) : Char :=
  if n < 10 then Char.ofNat (48 + n) else Char.ofNat (87 + n)

/-- Models `hex.EncodeToString`: two lower-case hex digits per byte. -/
def hexEncode (bytes : List Nat) : String :=
  String.mk (bytes.foldr (fun b acc => hexDigit (b / 16 % 16) :: hexDigit (b % 16) :: acc) [])

/-- The content-hash ETag computed by `httpGetBytesCompare`: hex MD5 of the
body bytes. -/
def md5Hex (p : List Nat) : String := hexEncode (md5Bytes p)

/-- Models `httpGetBytesCompare` (part_002): on a fetch error pass it
through; on success compute the hex MD5 ETag of the body and report
`ErrPackageNotModified` exactly when it equals the saved ETag, still
returning the body and the computed ETag. -/
def httpGetBytesCompare (fetched : Except DocErr (List Nat)) (savedEtag : String) :
    FetchTriple :=
  match fetched with
  | .error e => ⟨none, "", some e⟩
  | .ok p =>
    let etag := md5Hex p
    ⟨some p, etag, if savedEtag = etag then some .notModified else none⟩

/-! Parallel file fetching: `fetchFiles` (part_002). Each listed file gets
one goroutine that fetches its raw URL and, on success, writes the file's
data field before signalling the completion channel; the collector returns
the first error that arrives, or nil once all goroutines have reported. The
model takes the per-file fetch outcomes and the order in which completions
arrive on the channel. -/

/-- The `source` file record as `fetchFiles` sees it: the raw URL and the
data field the goroutine fills in on success. -/
structure SourceFile where
  rawURL : String
  data : Option (List Nat)
  deriving DecidableEq, Repr

/-- Data fields after all fetch goroutines have run: each successfully
fetched file's data is overwritten with the fetched bytes; files whose
fetch failed keep their previous data. -/
def fetchWrites (files : List SourceFile)
    (results : List (Except DocErr (List Nat))) : List SourceFile :=
  files.zipWith
    (fun f r => match r with
      | .ok bytes => { f with data := some bytes }
      | .error _ => f)
    results

/-- The value `fetchFiles` returns: the first error in channel-arrival
order, or `none` when every completion that arrives is a success. `order`
lists the file indices in the order their goroutines report. -/
def fetchFirstErr (results : List (Except DocErr (List Nat)))
    (order : List Nat) : Option DocErr :=
  order.findSome? fun i =>
    match results.getD i (.ok []) with
    | .error e => some e
    | .ok _ => none

/-- Models `fetchFiles` (part_002): the returned error together with the
state of the files' data fields once every goroutine has run. -/
def fetchFiles (files : List SourceFile)
    (results : List (Except DocErr (List Nat))) (order : List Nat) :
    Option DocErr × List SourceFile :=
  (fetchFirstErr results order, fetchWrites files results)

/-! Dynamic discovery: `getMeta` (doc/doc.go lines 53-119). The fetched
page is modelled as the list of XML tokens the decoder yields. -/

/-- An XML token as `getMeta` consumes it. -/
inductive HtmlTok where
  | endEl (name : String)
  | startEl (name : String) (attrs : List (String × String))
  deriving DecidableEq, Repr

/-- Models `strings.EqualFold` on the ASCII names compared by `getMeta`. -/
def eqFold (a b : String) : Bool := goToLower a == goToLower b

/-- Models `attrValue` (doc/doc.go): the first attribute whose name matches
case-insensitively, or the empty string. -/
def attrValue (attrs : List (String × String)) (name : String) : String :=
  match attrs.find? fun a => eqFold a.1 name with
  | some a => a.2
  | none => ""

/-- Models `strings.Fields`: maximal runs of non-space characters, collected
through an accumulator holding the current run reversed. -/
def goFieldsAux : List Char → List Char → List (List Char)
  | [], acc => if acc.isEmpty then [] else [acc.reverse]
  | c :: cs, acc =>
    if goIsSpace c then
      if acc.isEmpty then goFieldsAux cs []
      else acc.reverse :: goFieldsAux cs []
    else goFieldsAux cs (c :: acc)

/-- Models `strings.Fields` on strings. -/
def goFields (s : String) : List String := (goFieldsAux s.data []).map String.mk

/-- The boundary test `getMeta` applies to a declared project root: it must
be the whole import path or a prefix of it ending at a '/' boundary. -/
def rootMatches (importPath root : String) : Bool :=
  root.data.isPrefixOf importPath.data &&
    (importPath.data.length == root.data.length ||
     importPath.data.getD root.data.length ' ' == '/')

/-- Whether a token is a `go-import` meta declaration whose content matches
the import path, yielding its (projectRoot, repoRoot) pair. -/
def metaDecl (importPath : String) : HtmlTok → Option (String × String)
  | .endEl _ => none
  | .startEl name attrs =>
    if eqFold name "meta" && attrValue attrs "name" == "go-import" then
      match goFields (attrValue attrs "content") with
      | [root, _, repo] => if rootMatches importPath root then some (root, repo) else none
      | _ => none
    else none

/-- Whether a token ends the scan: an end element named `head`, or a start
element named `body`. -/
def stopTok : HtmlTok → Bool
  | .endEl name => eqFold name "head"
  | .startEl name _ => eqFold name "body"

/-- The scan loop of `getMeta`: walk the tokens until `</head>`, `<body>` or
the end of input, tracking the first matching declaration; a second matching
declaration returns `ErrPackageNotFound` immediately. -/
def getMetaScan (importPath : String) (found : Option (String × String)) :
    List HtmlTok → Except DocErr (String × String)
  | [] => match found with
    | some pr => .ok pr
    | none => .error .notFound
  | t :: ts =>
    if stopTok t then
      match found with
      | some pr => .ok pr
      | none => .error .notFound
    else
      match metaDecl importPath t with
      | none => getMetaScan importPath found ts
      | some pr =>
        match found with
        | some _ => .error .notFound
        | none => getMetaScan importPath (some pr) ts

/-- The matching declarations in the part of the page the scan can see
(before `</head>` or `<body>`). -/
def matchingMetas (importPath : String) (toks : List HtmlTok) :
    List (String × String) :=
  (toks.takeWhile fun t => !stopTok t).filterMap (metaDecl importPath)

/-- The result of a successful `getMeta`: project root, name, URL and the
repository root from the single matching declaration. -/
structure MetaRes where
  projectRoot : String
  projectName : String
  projectURL : String
  repoRoot : String
  deriving DecidableEq, Repr

/-- Models `strings.SplitN(importPath, "/", 2)[0]`: the first path segment,
used as the host in `getMeta`'s transport error. -/
def firstSeg (s : String) : String :=
  String.mk (s.data.takeWhile fun c => c ≠ '/')

/-- The URI `getMeta` requests: the import path (with a slash appended for a
bare domain) plus the go-get discovery query parameter. -/
def metaURI (importPath : String) : String :=
  (if importPath.data.contains '/' then importPath else importPath ++ "/") ++ "?go-get=1"

/-- The page-scanning half of `getMeta`: scan the fetched page's tokens and
package a single matching go-import declaration into the result, with the
project URL built from the protocol the page was fetched over. -/
def getMetaFromPage (importPath proto : String) (toks : List HtmlTok) :
    Except DocErr MetaRes :=
  match getMetaScan importPath none toks with
  | .error e => .error e
  | .ok (root, repo) =>
    .ok { projectRoot := root
          projectName := pathSplitName root
          projectURL := proto ++ root
          repoRoot := repo }

/-- Models `getMeta` (doc/doc.go): try HTTPS first; on connection failure or
a non-200 status retry over plain HTTP, whose connection failure is a
`GetError` on the first path segment; then scan the fetched page. Each
fetch outcome is a connection failure or a status code with the page's
token list. -/
def getMeta (importPath : String)
    (httpsResp httpResp : Except Unit (Nat × List HtmlTok)) :
    Except DocErr MetaRes :=
  match httpsResp with
  | .ok (200, toks) => getMetaFromPage importPath "https://" toks
  | _ =>
    match httpResp with
    | .error _ => .error (.getError (firstSeg importPath))
    | .ok (_, toks) => getMetaFromPage importPath "http://" toks

/-! Example fixtures used in concrete instances of the theorems. -/

/-- Example documentation record of a command package. -/
def exCmdDoc : DocPackage :=
  { importPath := "example.com/x", projectRoot := "example.com/x", projectName := "x",
    projectURL := "https://example.com/x", etag := "abc", name := "main",
    synopsis := "A tool.", doc := "One. Two.", isCmd := true,
    errors := [], consts := [], vars := [], funcs := [], types := [] }

/-- The index record derived from `exCmdDoc`. -/
def exCmdPkg : Package :=
  { importPath := "example.com/x", synopsis := "A tool.", packageName := "main",
    isCmd := true, hide := false, indexTokens := ["example.com/x", "x"] }

/-- Example documentation record whose doc text alone exceeds the
serialized-size threshold. -/
def bigDoc : DocPackage :=
  { importPath := "", projectRoot := "", projectName := "", projectURL := "",
    etag := "", name := "big", synopsis := "",
    doc := String.mk (List.replicate 900000 'a'),
    isCmd := false, errors := [], consts := [], vars := [], funcs := [], types := [] }

/-- Example discovery page: one matching go-import meta declaration inside
the head. -/
def exToks : List HtmlTok :=
  [.startEl "meta" [("name", "go-import"),
     ("content", "example.org git https://example.org/repo")],
   .endEl "head"]

/-! Helper lemmas. -/

theorem splitChar_ne_nil (sep : Char) (l : List Char) : splitChar sep l ≠ [] := by
  induction l with
  | nil => simp [splitChar]
  | cons c cs ih =>
    unfold splitChar
    cases h : splitChar sep cs with
    | nil => exact absurd h ih
    | cons p ps => by_cases hc : c = sep <;> simp [hc]

theorem all_false_of_bad {l : List Char} {c : Char} (hc : c ∈ l)
    (hb : badRune c = true) : l.all (fun r => !badRune r) = false := by
  rw [List.all_eq_false]
  exact ⟨c, hc, by simp [hb]⟩

theorem vrp_cons {s : String} {p0 : List Char} {rest : List (List Char)}
    (heq : splitChar '/' s.data = p0 :: rest) :
    ValidRemotePath s =
      (s.data.all (fun r => !badRune r) &&
       (validHost p0 &&
        badTLDs.all (fun tld => !(tld.data.isSuffixOf p0)) &&
        rest.all (fun part =>
          !(part.isEmpty || part.head? == some '.' || part.head? == some '_' ||
            part == "testdata".data)))) := by
  unfold ValidRemotePath
  rw [heq]

/-! Claim C1. -/

/-- C1: ValidRemotePath is a pure predicate on import-path strings that
returns true for "github.com/user/repo" and "camlistore.org" and false for
the seven listed bad paths; and for every input it returns false when the
path contains a control character or DEL, a backslash, whitespace, or a
reserved punctuation rune, when the first segment fails the dotted-host
test or ends with a disallowed suffix, or when any later segment is empty,
begins with '.' or '_', or equals "testdata". -/
theorem validRemotePath_spec :
    (ValidRemotePath "github.com/user/repo" = true ∧
     ValidRemotePath "camlistore.org" = true ∧
     ValidRemotePath "foobar" = false ∧
     ValidRemotePath "foo." = false ∧
     ValidRemotePath ".bar" = false ∧
     ValidRemotePath "favicon.ico" = false ∧
     ValidRemotePath "github.com/user/repo/testdata/x" = false ∧
     ValidRemotePath "github.com/user/repo/_ignore/x" = false ∧
     ValidRemotePath "github.com/user/repo/.ignore/x" = false) ∧
    ∀ s : String,
      ((∃ c ∈ s.data, c.toNat < 0x20 ∨ c.toNat = 0x7f) ∨
       '\\' ∈ s.data ∨
       (∃ c ∈ s.data, goIsSpace c = true) ∨
       (∃ c ∈ s.data, c ∈ reservedPunct) ∨
       validHost ((splitChar '/' s.data).headD []) = false ∨
       (∃ tld ∈ badTLDs, tld.data.isSuffixOf ((splitChar '/' s.data).headD []) = true) ∨
       (∃ part ∈ (splitChar '/' s.data).tail,
          part = [] ∨ part.head? = some '.' ∨ part.head? = some '_' ∨
          part = "testdata".data)) →
      ValidRemotePath s = false := by
  refine ⟨by decide, ?_⟩
  intro s h
  obtain ⟨p0, rest, heq⟩ : ∃ p0 rest, splitChar '/' s.data = p0 :: rest := by
    cases hsp : splitChar '/' s.data with
    | nil => exact absurd hsp (splitChar_ne_nil _ _)
    | cons a b => exact ⟨a, b, rfl⟩
  rw [vrp_cons heq]
  rw [heq] at h
  simp only [List.headD_cons, List.tail_cons] at h
  rcases h with h | h | h | h | h | h | h
  · obtain ⟨c, hc, hlt⟩ := h
    have hb : badRune c = true := by
      simp only [badRune, Bool.or_eq_true, decide_eq_true_eq, beq_iff_eq]
      tauto
    rw [all_false_of_bad hc hb, Bool.false_and]
  · have hb : badRune '\\' = true := by decide
    rw [all_false_of_bad h hb, Bool.false_and]
  · obtain ⟨c, hc, hsp⟩ := h
    have hb : badRune c = true := by
      simp only [badRune, Bool.or_eq_true, hsp]
      tauto
    rw [all_false_of_bad hc hb, Bool.false_and]
  · obtain ⟨c, hc, hp⟩ := h
    have hcont : reservedPunct.contains c = true := List.elem_eq_true_of_mem hp
    have hb : badRune c = true := by
      simp only [badRune, Bool.or_eq_true, hcont]
      tauto
    rw [all_false_of_bad hc hb, Bool.false_and]
  · rw [h]
    simp only [Bool.false_and, Bool.and_false]
  · obtain ⟨tld, htld, hsuf⟩ := h
    have hb : badTLDs.all (fun tld => !(tld.data.isSuffixOf p0)) = false :=
      List.all_eq_false.mpr ⟨tld, htld, by rw [hsuf]; simp⟩
    rw [hb]
    simp only [Bool.false_and, Bool.and_false]
  · obtain ⟨part, hpart, hbad⟩ := h
    have hb : rest.all (fun part =>
        !(part.isEmpty || part.head? == some '.' || part.head? == some '_' ||
          part == "testdata".data)) = false := by
      refine List.all_eq_false.mpr ⟨part, hpart, ?_⟩
      have ht : (part.isEmpty || part.head? == some '.' || part.head? == some '_' ||
          part == "testdata".data) = true := by
        rcases hbad with h | h | h | h <;>
          simp only [h, List.isEmpty_nil, beq_self_eq_true, Bool.true_or, Bool.or_true]
      rw [ht]
      simp
    rw [hb]
    simp only [Bool.false_and, Bool.and_false]

/-! Claim C2. -/

/-- C2: cacheSafeSet returns success in every designed race outcome — with
no prior value observed the add-if-absent "already stored" failure is
success; with a prior value observed a CAS conflict is success and a
"not stored" CAS failure falls back to add-if-absent whose "already stored"
failure is again success — and it returns an error exactly when the
encoding fails or the store reports some other error; in the two-writer
race on a previously absent key, both writers succeed and exactly the
first writer's value is stored. -/
theorem cacheSafeSet_spec :
    (∀ (eOk hp : Bool) (cr ar : Option McErr),
       cacheSafeSet eOk hp cr ar = none ↔
         (eOk = true ∧
          (if hp then
            cr = none ∨ cr = some .casConflict ∨
              (cr = some .notStored ∧ (ar = none ∨ ar = some .notStored))
           else (ar = none ∨ ar = some .notStored)))) ∧
    (∀ vA vB : List Nat,
       cacheSafeSet true false none (mcAdd none vA).2 = none ∧
       cacheSafeSet true false none (mcAdd (mcAdd none vA).1 vB).2 = none ∧
       (mcAdd (mcAdd none vA).1 vB).1 = some vA) := by
  constructor
  · intro eOk hp cr ar
    cases eOk <;> cases hp <;>
      rcases cr with _ | c <;> rcases ar with _ | a <;>
      first
      | (cases c <;> cases a <;> simp [cacheSafeSet])
      | (cases c <;> simp [cacheSafeSet])
      | (cases a <;> simp [cacheSafeSet])
      | simp [cacheSafeSet]
  · intro vA vB
    exact ⟨rfl, rfl, rfl⟩

/-! Claim C3. -/

theorem zip_len_eq_iff {l1 l2 : List String} :
    (l1.length = l2.length ∧ ∀ p ∈ List.zip l1 l2, p.1 = p.2) ↔ l1 = l2 := by
  induction l1 generalizing l2 with
  | nil => cases l2 <;> simp
  | cons a l1 ih =>
    cases l2 with
    | nil => simp
    | cons b l2 =>
      simp only [List.length_cons, List.zip_cons_cons, List.mem_cons, List.cons.injEq]
      constructor
      · rintro ⟨hlen, hall⟩
        refine ⟨hall (a, b) (Or.inl rfl), ih.mp ⟨Nat.succ_injective hlen, ?_⟩⟩
        exact fun p hp => hall p (Or.inr hp)
      · rintro ⟨rfl, rfl⟩
        refine ⟨rfl, ?_⟩
        rintro p (rfl | hp)
        · rfl
        · exact (ih.mpr rfl).2 p hp

theorem equal_iff (p q : Package) :
    p.equal q = true ↔
      (p.synopsis = q.synopsis ∧ p.hide = q.hide ∧ p.isCmd = q.isCmd ∧
       p.indexTokens = q.indexTokens) := by
  unfold Package.equal
  simp only [Bool.and_eq_true, beq_iff_eq, List.all_eq_true]
  constructor
  · rintro ⟨⟨⟨⟨h1, h2⟩, h3⟩, h4⟩, h5⟩
    exact ⟨h1, h2, h3, zip_len_eq_iff.mp ⟨h4, h5⟩⟩
  · rintro ⟨h1, h2, h3, h4⟩
    have hz := zip_len_eq_iff.mpr h4
    exact ⟨⟨⟨⟨h1, h2⟩, h3⟩, hz.1⟩, hz.2⟩

theorem makePkg_doc_irrel (ip t : String) (d : DocPackage)
    (hb : cmdHide d.synopsis t = cmdHide d.synopsis d.doc) :
    makePkg ip (some { d with doc := t }) = makePkg ip (some d) := by
  unfold makePkg
  dsimp only
  rw [hb]

theorem makePkg_doc_irrel_branch (ip t : String) (d : DocPackage)
    (h : legacyGoRoot.data.isPrefixOf ip.data = true ∨ d.projectRoot = "" ∨
      d.isCmd = false) :
    makePkg ip (some { d with doc := t }) = makePkg ip (some d) := by
  unfold makePkg
  dsimp only
  rcases h with h | h | h <;> simp [h]

theorem makePkg_cmd (ip : String) (d : DocPackage)
    (hname : d.name ≠ "") (hleg : legacyGoRoot.data.isPrefixOf ip.data = false)
    (hroot : d.projectRoot ≠ "") (hcmd : d.isCmd = true) :
    makePkg ip (some d) = some
      { importPath := ip
        synopsis := d.synopsis
        packageName := d.name
        isCmd := d.isCmd
        hide := cmdHide d.synopsis d.doc
        indexTokens := [goToLower d.projectRoot] ++
          (if cmdHide d.synopsis d.doc then []
           else [pathSplitName (goToLower d.importPath)]) } := by
  unfold makePkg
  dsimp only
  rw [if_neg hname, if_pos hroot]
  simp only [hleg, Bool.false_eq_true, if_false, hroot, if_neg, hcmd, if_true,
    not_false_iff, ite_not]
  by_cases hch : cmdHide d.synopsis d.doc = true <;> simp [hch]

/-- C3: two index records are equal exactly when synopsis, hide, isCmd and
the ordered index-token lists all match (package name and import path do
not participate); an equal derived record suppresses the durable-tier
index write and the ephemeral-tier invalidation; and two documentation
records differing only in doc text, when they lead to the same hide
outcome, yield equal index records and no write. -/
theorem indexRecordEquality_spec :
    (∀ p q : Package,
       p.equal q = true ↔
         (p.synopsis = q.synopsis ∧ p.hide = q.hide ∧ p.isCmd = q.isCmd ∧
          p.indexTokens = q.indexTokens)) ∧
    (∀ s p : Package,
       p.equal s = true →
         indexUpdate (some s) (some p) = ⟨none, false, false⟩) ∧
    (∀ (ip t : String) (d : DocPackage) (p1 p2 : Package),
       makePkg ip (some d) = some p1 →
       makePkg ip (some { d with doc := t }) = some p2 →
       p1.hide = p2.hide →
       p1.equal p2 = true ∧
         indexUpdate (some p1) (some p2) = ⟨none, false, false⟩) := by
  refine ⟨equal_iff, ?_, ?_⟩
  · intro s p h
    simp [indexUpdate, h]
  · intro ip t d p1 p2 h1 h2 hh
    have hpq : p1 = p2 := by
      by_cases hb : cmdHide d.synopsis t = cmdHide d.synopsis d.doc
      · rw [makePkg_doc_irrel ip t d hb, h1] at h2
        exact Option.some.inj h2
      · by_cases hleg : legacyGoRoot.data.isPrefixOf ip.data = true
        · rw [makePkg_doc_irrel_branch ip t d (Or.inl hleg), h1] at h2
          exact Option.some.inj h2
        · by_cases hroot : d.projectRoot = ""
          · rw [makePkg_doc_irrel_branch ip t d (Or.inr (Or.inl hroot)), h1] at h2
            exact Option.some.inj h2
          · by_cases hcmd : d.isCmd = true
            · by_cases hname : d.name = ""
              · rw [show makePkg ip (some d) = none by simp [makePkg, hname]] at h1
                exact absurd h1 (by simp)
              · have hleg' : legacyGoRoot.data.isPrefixOf ip.data = false := by
                  revert hleg
                  cases legacyGoRoot.data.isPrefixOf ip.data <;> simp
                rw [makePkg_cmd ip d hname hleg' hroot hcmd] at h1
                rw [makePkg_cmd ip { d with doc := t } hname hleg' hroot hcmd] at h2
                have e1 := (Option.some.inj h1)
                have e2 := (Option.some.inj h2)
                rw [← e1, ← e2] at hh
                dsimp only at hh
                exact absurd hh.symm hb
            · rw [makePkg_doc_irrel_branch ip t d
                (Or.inr (Or.inr (by revert hcmd; cases d.isCmd <;> simp))), h1] at h2
              exact Option.some.inj h2
    subst hpq
    have he : p1.equal p1 = true := equal_iff p1 p1 |>.mpr ⟨rfl, rfl, rfl, rfl⟩
    exact ⟨he, by simp [indexUpdate, he]⟩

/-- C1 witness: the universal part of `validRemotePath_spec` applied to a
concrete path containing whitespace. -/
theorem validRemotePath_spec_witness :
    ((∃ c ∈ ("foo bar" : String).data, c.toNat < 0x20 ∨ c.toNat = 0x7f) ∨
     '\\' ∈ ("foo bar" : String).data ∨
     (∃ c ∈ ("foo bar" : String).data, goIsSpace c = true) ∨
     (∃ c ∈ ("foo bar" : String).data, c ∈ reservedPunct) ∨
     validHost ((splitChar '/' ("foo bar" : String).data).headD []) = false ∨
     (∃ tld ∈ badTLDs,
        tld.data.isSuffixOf ((splitChar '/' ("foo bar" : String).data).headD []) = true) ∨
     (∃ part ∈ (splitChar '/' ("foo bar" : String).data).tail,
        part = [] ∨ part.head? = some '.' ∨ part.head? = some '_' ∨
        part = "testdata".data)) ∧
    ValidRemotePath "foo bar" = false :=
  ⟨by decide, validRemotePath_spec.2 "foo bar" (by decide)⟩

/-- C3 witness: `indexRecordEquality_spec` applied to two concrete command
documentation records that differ only in doc text. -/
theorem indexRecordEquality_spec_witness :
    makePkg "example.com/x" (some exCmdDoc) = some exCmdPkg ∧
    makePkg "example.com/x" (some { exCmdDoc with doc := "Uno. Dos." }) = some exCmdPkg ∧
    (exCmdPkg.equal exCmdPkg = true ∧
     indexUpdate (some exCmdPkg) (some exCmdPkg) = ⟨none, false, false⟩) :=
  ⟨by decide, by decide,
   indexRecordEquality_spec.2.2 "example.com/x" "Uno. Dos." exCmdDoc exCmdPkg exCmdPkg
     (by decide) (by decide) rfl⟩

/-! Claim C4. -/

theorem cmdHide_iff (s doc : String) :
    cmdHide s doc = true ↔
      (s = "" ∨ firstIdx '.' doc.data = none ∨
       firstIdx '.' doc.data = some (doc.data.length - 1)) := by
  simp [cmdHide, Bool.or_eq_true, beq_iff_eq, Option.isNone_iff_eq_none]
  tauto

/-- C4: for a command documentation record (isCmd, non-empty name, non-empty
project root, import path not under the legacy mirror), the derived index
record is hidden iff the synopsis is empty, the doc text has no '.', or the
first '.' is its final character; a visible command is indexed by its
lowercased project root and the lowercased final segment of its import
path; a one-sentence doc ending in '.' is hidden while the same text with
trailing content is visible. -/
theorem cmdVisibility_spec :
    (∀ (ip : String) (d : DocPackage),
       d.isCmd = true → d.name ≠ "" → d.projectRoot ≠ "" →
       legacyGoRoot.data.isPrefixOf ip.data = false →
       ∃ p, makePkg ip (some d) = some p ∧
         (p.hide = true ↔
           (d.synopsis = "" ∨ firstIdx '.' d.doc.data = none ∨
            firstIdx '.' d.doc.data = some (d.doc.data.length - 1))) ∧
         (p.hide = false →
           p.indexTokens =
             [goToLower d.projectRoot, pathSplitName (goToLower d.importPath)])) ∧
    (makePkg "example.com/x"
      (some { exCmdDoc with doc := "Cmd does things." })).map Package.hide = some true ∧
    (makePkg "example.com/x"
      (some { exCmdDoc with doc := "Cmd does things. More" })).map Package.hide = some false := by
  refine ⟨?_, by decide, by decide⟩
  intro ip d hcmd hname hroot hleg
  rw [makePkg_cmd ip d hname hleg hroot hcmd]
  refine ⟨_, rfl, ?_, ?_⟩
  · exact cmdHide_iff d.synopsis d.doc
  · intro hfalse
    dsimp only at hfalse ⊢
    rw [hfalse]
    simp

/-- C4 witness: `cmdVisibility_spec` applied to the concrete command record
`exCmdDoc`. -/
theorem cmdVisibility_spec_witness :
    (exCmdDoc.isCmd = true ∧ exCmdDoc.name ≠ "" ∧ exCmdDoc.projectRoot ≠ "" ∧
     legacyGoRoot.data.isPrefixOf ("example.com/x" : String).data = false) ∧
    (∃ p, makePkg "example.com/x" (some exCmdDoc) = some p ∧
      (p.hide = true ↔
        (exCmdDoc.synopsis = "" ∨ firstIdx '.' exCmdDoc.doc.data = none ∨
         firstIdx '.' exCmdDoc.doc.data = some (exCmdDoc.doc.data.length - 1))) ∧
      (p.hide = false →
        p.indexTokens =
          [goToLower exCmdDoc.projectRoot, pathSplitName (goToLower exCmdDoc.importPath)])) :=
  ⟨⟨by decide, by decide, by decide, by decide⟩,
   cmdVisibility_spec.1 "example.com/x" exCmdDoc (by decide) (by decide)
     (by decide) (by decide)⟩

/-! Claim C5. -/

/-- C5: cacheGet treats a stored one-zero-byte value as a cache miss and
never hands the sentinel to the decoder; cacheClear writes that one-byte
tombstone with a two-minute expiration instead of deleting; so a read of
any invalidated key yields a miss and never the pre-invalidation value,
even though the tombstone entry still physically exists. -/
theorem cacheTombstone_spec :
    (∀ (store : String → Option McItem) (keys : List String) (key : String),
       key ∈ keys →
         cacheGet (cacheClear store keys) key = .miss ∧
         cacheClear store keys key = some ⟨[0], 2 * timeMinute⟩) ∧
    (∀ (store : String → Option McItem) (k : String) (e : Nat),
       store k = some ⟨[0], e⟩ → cacheGet store k = .miss) ∧
    (∀ (store : String → Option McItem) (k : String) (b : List Nat),
       cacheGet store k = .decoded b → b ≠ [0]) := by
  refine ⟨?_, ?_, ?_⟩
  · intro store keys key hk
    constructor
    · simp [cacheGet, cacheClear, hk]
    · simp [cacheClear, hk]
  · intro store k e h
    simp [cacheGet, h]
  · intro store k b h
    unfold cacheGet at h
    cases hs : store k with
    | none => rw [hs] at h; simp at h
    | some item =>
      rw [hs] at h
      dsimp only at h
      by_cases hv : item.value = [0]
      · rw [if_pos hv] at h
        simp at h
      · rw [if_neg hv] at h
        cases h
        exact hv

/-- C5 witness: `cacheTombstone_spec` applied to a concrete store holding a
value for key "a" that is then invalidated. -/
theorem cacheTombstone_spec_witness :
    ("a" : String) ∈ (["a"] : List String) ∧
    cacheGet (cacheClear (fun _ => some ⟨[7, 8], 0⟩) ["a"]) "a" = .miss ∧
    cacheClear (fun _ => some ⟨[7, 8], 0⟩) ["a"] "a" = some ⟨[0], 2 * timeMinute⟩ :=
  ⟨by decide,
   (cacheTombstone_spec.1 (fun _ => some ⟨[7, 8], 0⟩) ["a"] "a" (by decide)).1,
   (cacheTombstone_spec.1 (fun _ => some ⟨[7, 8], 0⟩) ["a"] "a" (by decide)).2⟩

/-! Claim C6. -/

theorem stripQuotes_quoted (s : String) : stripQuotes ("\"" ++ s ++ "\"") = s := by
  have hdata : ("\"" ++ s ++ "\"").data = '"' :: (s.data ++ ['"']) := rfl
  unfold stripQuotes
  rw [hdata]
  rw [if_pos]
  · show String.mk ((s.data ++ ['"']).dropLast) = s
    rw [List.dropLast_concat]
  · refine ⟨?_, rfl, ?_⟩
    · simp
    · show (('"' :: s.data) ++ ['"']).getLast? = some '"'
      exact List.getLast?_concat _

theorem stripQuotes_bad (h : String)
    (hc : h.data.length < 2 ∨ h.data.head? ≠ some '"' ∨ h.data.getLast? ≠ some '"') :
    stripQuotes h = "" := by
  unfold stripQuotes
  rw [if_neg]
  rintro ⟨hl, hh, hg⟩
  rcases hc with hc | hc | hc
  · omega
  · exact hc hh
  · exact hc hg

/-- C6: the conditional fetcher classifies every HTTP outcome as specified —
`httpGetBytesNoneMatch` sends the quoted saved ETag as the If-None-Match
precondition value and, for status 200, returns the body plus the server
ETag with surrounding quotes stripped (the empty string when the header is
absent or unquoted); for 304 it returns PackageNotModified with no body;
for 404 PackageNotFound; and for any other status or connection failure a
transport error carrying the remote host; `httpGetBytesCompare` passes
fetch errors through and, on a fetched body, reports PackageNotModified
exactly when the hex MD5 of the body equals the saved ETag. -/
theorem conditionalFetch_spec :
    (∀ (host se : String) (server : String → Except Unit HttpResp),
       server (noneMatchHeader se) = .error () →
         httpGetBytesNoneMatch host se server = ⟨none, "", some (.getError host)⟩) ∧
    (∀ (host se : String) (server : String → Except Unit HttpResp) (r : HttpResp),
       server (noneMatchHeader se) = .ok r →
         (r.status = 200 →
           httpGetBytesNoneMatch host se server =
             ⟨some r.body, stripQuotes r.etagHeader, none⟩) ∧
         (r.status = 404 →
           httpGetBytesNoneMatch host se server = ⟨none, "", some .notFound⟩) ∧
         (r.status = 304 →
           httpGetBytesNoneMatch host se server = ⟨none, "", some .notModified⟩) ∧
         (r.status ≠ 200 → r.status ≠ 404 → r.status ≠ 304 →
           httpGetBytesNoneMatch host se server = ⟨none, "", some (.getError host)⟩)) ∧
    (∀ s : String, stripQuotes ("\"" ++ s ++ "\"") = s) ∧
    (∀ h : String,
       (h.data.length < 2 ∨ h.data.head? ≠ some '"' ∨ h.data.getLast? ≠ some '"') →
       stripQuotes h = "") ∧
    (∀ (e : DocErr) (se : String),
       httpGetBytesCompare (.error e) se = ⟨none, "", some e⟩) ∧
    (∀ (p : List Nat) (se : String),
       (httpGetBytesCompare (.ok p) se).err = some .notModified ↔ se = md5Hex p) := by
  refine ⟨?_, ?_, stripQuotes_quoted, stripQuotes_bad, ?_, ?_⟩
  · intro host se server h
    unfold httpGetBytesNoneMatch
    rw [h]
  · intro host se server r h
    refine ⟨?_, ?_, ?_, ?_⟩ <;> unfold httpGetBytesNoneMatch <;> rw [h] <;> dsimp only
    · intro h200
      rw [if_pos h200]
    · intro h404
      rw [if_neg (by omega), if_pos h404]
    · intro h304
      rw [if_neg (by omega), if_neg (by omega), if_pos h304]
    · intro hn1 hn2 hn3
      rw [if_neg hn1, if_neg hn2, if_neg hn3]
  · intro e se
    rfl
  · intro p se
    unfold httpGetBytesCompare
    dsimp only
    by_cases hse : se = md5Hex p
    · simp [hse]
    · simp [hse]

/-- C6 witness: `conditionalFetch_spec` applied to a concrete 200 response
carrying a quoted ETag. -/
theorem conditionalFetch_spec_witness :
    ((fun _ => .ok ⟨200, "\"abc\"", [1, 2]⟩ : String → Except Unit HttpResp)
        (noneMatchHeader "old") = .ok ⟨200, "\"abc\"", [1, 2]⟩ ∧
     (⟨200, "\"abc\"", [1, 2]⟩ : HttpResp).status = 200) ∧
    httpGetBytesNoneMatch "example.com" "old"
        (fun _ => .ok ⟨200, "\"abc\"", [1, 2]⟩) =
      ⟨some [1, 2], stripQuotes "\"abc\"", none⟩ :=
  ⟨⟨rfl, rfl⟩,
   (conditionalFetch_spec.2.1 "example.com" "old"
      (fun _ => .ok ⟨200, "\"abc\"", [1, 2]⟩) ⟨200, "\"abc\"", [1, 2]⟩ rfl).1 rfl⟩

/-! Claim C10. -/

/-- C10: for every fetched body, httpGetBytesCompare returns the body bytes
and the hex MD5 digest of those bytes as the new ETag, even when it
reports PackageNotModified — the not-modified outcome is signalled only
through the error value, and whenever a body is returned the returned etag
is the digest of that body. -/
theorem compareConsistency_spec :
    (∀ (p : List Nat) (se : String),
       (httpGetBytesCompare (.ok p) se).body = some p ∧
       (httpGetBytesCompare (.ok p) se).etag = md5Hex p ∧
       (se = md5Hex p → (httpGetBytesCompare (.ok p) se).err = some .notModified) ∧
       (se ≠ md5Hex p → (httpGetBytesCompare (.ok p) se).err = none)) ∧
    (∀ (f : Except DocErr (List Nat)) (se : String) (p : List Nat),
       (httpGetBytesCompare f se).body = some p →
       (httpGetBytesCompare f se).etag = md5Hex p) := by
  constructor
  · intro p se
    refine ⟨rfl, rfl, ?_, ?_⟩
    · intro hse
      unfold httpGetBytesCompare
      dsimp only
      rw [if_pos hse]
    · intro hse
      unfold httpGetBytesCompare
      dsimp only
      rw [if_neg hse]
  · intro f se p h
    cases f with
    | error e => simp [httpGetBytesCompare] at h
    | ok q =>
      have hq : q = p := by
        simpa [httpGetBytesCompare] using h
      rw [← hq]
      rfl

/-- C10 witness: `compareConsistency_spec` applied to a concrete fetched
body. -/
theorem compareConsistency_spec_witness :
    (httpGetBytesCompare (.ok [1, 2, 3]) "x").body = some [1, 2, 3] ∧
    (httpGetBytesCompare (.ok [1, 2, 3]) "x").etag = md5Hex [1, 2, 3] :=
  ⟨rfl, compareConsistency_spec.2 (.ok [1, 2, 3]) "x" [1, 2, 3] rfl⟩

/-! Claim C7. -/

theorem gobEncode_length (p : DocPackage) :
    (gobEncode p).length =
      p.importPath.data.length + p.projectRoot.data.length +
      p.projectName.data.length + p.projectURL.data.length +
      p.etag.data.length + p.name.data.length + p.synopsis.data.length +
      p.doc.data.length + 9 +
      (encodeList p.errors).length + (encodeList p.consts).length +
      (encodeList p.vars).length + (encodeList p.funcs).length +
      (encodeList p.types).length := by
  simp only [gobEncode, encodeStr, List.length_append, List.length_cons,
    List.length_map, List.length_nil]
  omega

theorem bigDoc_doc_len : bigDoc.doc.data.length = 900000 := by
  rw [show bigDoc.doc.data = List.replicate 900000 'a' from rfl, List.length_replicate]

theorem bigDoc_over : (gobEncode bigDoc).length > docSizeLimit := by
  rw [gobEncode_length bigDoc, bigDoc_doc_len,
    show bigDoc.importPath.data.length = 0 from rfl,
    show bigDoc.projectRoot.data.length = 0 from rfl,
    show bigDoc.projectName.data.length = 0 from rfl,
    show bigDoc.projectURL.data.length = 0 from rfl,
    show bigDoc.etag.data.length = 0 from rfl,
    show bigDoc.name.data.length = 3 from rfl,
    show bigDoc.synopsis.data.length = 0 from rfl,
    show (encodeList bigDoc.errors).length = 1 from rfl,
    show (encodeList bigDoc.consts).length = 1 from rfl,
    show (encodeList bigDoc.vars).length = 1 from rfl,
    show (encodeList bigDoc.funcs).length = 1 from rfl,
    show (encodeList bigDoc.types).length = 1 from rfl]
  norm_num [docSizeLimit]

theorem bigDocTrunc_over : (gobEncode (truncateDoc bigDoc)).length > docSizeLimit := by
  rw [gobEncode_length (truncateDoc bigDoc),
    show (truncateDoc bigDoc).doc.data = List.replicate 900000 'a' from rfl,
    List.length_replicate,
    show (truncateDoc bigDoc).importPath.data.length = 0 from rfl,
    show (truncateDoc bigDoc).projectRoot.data.length = 0 from rfl,
    show (truncateDoc bigDoc).projectName.data.length = 0 from rfl,
    show (truncateDoc bigDoc).projectURL.data.length = 0 from rfl,
    show (truncateDoc bigDoc).etag.data.length = 0 from rfl,
    show (truncateDoc bigDoc).name.data.length = 3 from rfl,
    show (truncateDoc bigDoc).synopsis.data.length = 0 from rfl,
    show (encodeList (truncateDoc bigDoc).errors).length = 26 from rfl,
    show (encodeList (truncateDoc bigDoc).consts).length = 1 from rfl,
    show (encodeList (truncateDoc bigDoc).vars).length = 1 from rfl,
    show (encodeList (truncateDoc bigDoc).funcs).length = 1 from rfl,
    show (encodeList (truncateDoc bigDoc).types).length = 1 from rfl]
  norm_num [docSizeLimit]

/-- C7 counterexample: for a record whose doc text alone exceeds the
threshold, the truncation path runs and re-serializes, but the stored
serialized size is still above the threshold — no verification brings it
below, refuting the claim that the size after truncation is verified to be
below the threshold. -/
theorem docTruncation_counterexample :
    (gobEncode bigDoc).length > docSizeLimit ∧
    storeDocBlob bigDoc = (gobEncode (truncateDoc bigDoc), truncateDoc bigDoc) ∧
    (gobEncode (truncateDoc bigDoc)).length > docSizeLimit := by
  refine ⟨bigDoc_over, ?_, bigDocTrunc_over⟩
  unfold storeDocBlob
  rw [if_pos bigDoc_over]

/-- C7 (amended): whenever the serialized documentation record exceeds the
800000-byte threshold, the record stored to the durable tier has its
consts, vars, funcs and types cleared and the truncation notice appended to
its error list, and is re-serialized before the write; the code performs no
verification that the truncated size is below the threshold (it can remain
above it when the uncleared doc text is large); a record at or below the
threshold is stored unmodified. -/
theorem docTruncation_amended :
    ∀ pdoc : DocPackage,
      ((gobEncode pdoc).length > docSizeLimit →
        storeDocBlob pdoc = (gobEncode (truncateDoc pdoc), truncateDoc pdoc) ∧
        (truncateDoc pdoc).consts = [] ∧ (truncateDoc pdoc).vars = [] ∧
        (truncateDoc pdoc).funcs = [] ∧ (truncateDoc pdoc).types = [] ∧
        (truncateDoc pdoc).errors = pdoc.errors ++ ["Documentation truncated."]) ∧
      ((gobEncode pdoc).length ≤ docSizeLimit →
        storeDocBlob pdoc = (gobEncode pdoc, pdoc)) := by
  intro pdoc
  constructor
  · intro h
    refine ⟨?_, rfl, rfl, rfl, rfl, rfl⟩
    unfold storeDocBlob
    rw [if_pos h]
  · intro h
    unfold storeDocBlob
    rw [if_neg (by omega)]

/-- C7 witness: `docTruncation_amended` applied to the oversized record
`bigDoc` and to the small record `exCmdDoc`. -/
theorem docTruncation_amended_witness :
    (gobEncode bigDoc).length > docSizeLimit ∧
    storeDocBlob bigDoc = (gobEncode (truncateDoc bigDoc), truncateDoc bigDoc) ∧
    (gobEncode exCmdDoc).length ≤ docSizeLimit ∧
    storeDocBlob exCmdDoc = (gobEncode exCmdDoc, exCmdDoc) := by
  have hbig : (gobEncode bigDoc).length > docSizeLimit := bigDoc_over
  have hsmall : (gobEncode exCmdDoc).length ≤ docSizeLimit := by decide
  exact ⟨hbig, ((docTruncation_amended bigDoc).1 hbig).1,
         hsmall, (docTruncation_amended exCmdDoc).2 hsmall⟩

/-! Claim C8. -/

/-- C8 counterexample: with two files where the first fetch fails and the
second succeeds, fetchFiles returns the transport error and the second
file's data field has nevertheless been overwritten with the fetched
bytes — refuting "no file's data field has been modified when an error is
returned". -/
theorem fetchFiles_counterexample :
    fetchFiles [⟨"u0", none⟩, ⟨"u1", none⟩]
        [.error (.getError "h"), .ok [7]] [0, 1] =
      (some (.getError "h"), [⟨"u0", none⟩, ⟨"u1", some [7]⟩]) := by
  decide

/-- C8 (amended): fetchFiles returns nil exactly when every fetch succeeds
(completions arriving once per file); each successfully fetched file's data
field holds the fetched bytes — also when another file's failure makes the
call return that first-arriving error — while files whose own fetch failed
keep their data field unmodified; any returned error is one of the fetch
errors. -/
theorem fetchFiles_amended :
    (∀ (files : List SourceFile) (results : List (Except DocErr (List Nat)))
        (order : List Nat),
       order.Perm (List.range results.length) →
       ((fetchFiles files results order).1 = none ↔
         ∀ r ∈ results, ∃ b, r = .ok b)) ∧
    (∀ (files : List SourceFile) (results : List (Except DocErr (List Nat)))
        (order : List Nat) (i : Nat) (f : SourceFile) (b : List Nat),
       files[i]? = some f → results[i]? = some (.ok b) →
       (fetchFiles files results order).2[i]? = some { f with data := some b }) ∧
    (∀ (files : List SourceFile) (results : List (Except DocErr (List Nat)))
        (order : List Nat) (i : Nat) (f : SourceFile) (e : DocErr),
       files[i]? = some f → results[i]? = some (.error e) →
       (fetchFiles files results order).2[i]? = some f) ∧
    (∀ (files : List SourceFile) (results : List (Except DocErr (List Nat)))
        (order : List Nat) (e : DocErr),
       (fetchFiles files results order).1 = some e →
       ∃ i ∈ order, results.getD i (.ok []) = .error e) := by
  refine ⟨?_, ?_, ?_, ?_⟩
  · intro files results order hperm
    show fetchFirstErr results order = none ↔ _
    unfold fetchFirstErr
    rw [List.findSome?_eq_none_iff]
    constructor
    · intro h r hr
      obtain ⟨n, hn⟩ := List.mem_iff_getElem?.mp hr
      have hlt : n < results.length := (List.getElem?_eq_some.mp hn).1
      have hmem : n ∈ order := hperm.mem_iff.mpr (List.mem_range.mpr hlt)
      have hfn := h n hmem
      rw [List.getD_eq_getElem?_getD, hn] at hfn
      cases r with
      | ok b => exact ⟨b, rfl⟩
      | error e => simp at hfn
    · intro h i hi
      have hlt : i < results.length := List.mem_range.mp (hperm.mem_iff.mp hi)
      have hn : results[i]? = some results[i] := List.getElem?_eq_some.mpr ⟨hlt, rfl⟩
      obtain ⟨b, hb⟩ := h results[i] (List.getElem_mem hlt)
      rw [List.getD_eq_getElem?_getD, hn, Option.getD_some, hb]
  · intro files results order i f b h1 h2
    show (fetchWrites files results)[i]? = _
    unfold fetchWrites
    rw [List.getElem?_zipWith, h1, h2]
  · intro files results order i f e h1 h2
    show (fetchWrites files results)[i]? = _
    unfold fetchWrites
    rw [List.getElem?_zipWith, h1, h2]
  · intro files results order e h
    replace h : fetchFirstErr results order = some e := h
    unfold fetchFirstErr at h
    obtain ⟨i, hi, hfi⟩ := List.exists_of_findSome?_eq_some h
    refine ⟨i, hi, ?_⟩
    revert hfi
    cases hres : results.getD i (.ok []) with
    | ok b => intro hfi; simp at hfi
    | error e2 =>
      intro hfi
      cases hfi
      rfl

/-- C8 witness: `fetchFiles_amended` applied to a concrete two-file batch
where both fetches succeed. -/
theorem fetchFiles_amended_witness :
    ([0, 1] : List Nat).Perm
      (List.range ([.ok [5], .ok [6]] : List (Except DocErr (List Nat))).length) ∧
    ((fetchFiles [⟨"u0", none⟩, ⟨"u1", none⟩] [.ok [5], .ok [6]] [0, 1]).1 = none ↔
      ∀ r ∈ ([.ok [5], .ok [6]] : List (Except DocErr (List Nat))), ∃ b, r = .ok b) ∧
    (fetchFiles [⟨"u0", none⟩, ⟨"u1", none⟩] [.ok [5], .ok [6]] [0, 1]).2[0]? =
      some ⟨"u0", some [5]⟩ :=
  ⟨by decide,
   fetchFiles_amended.1 [⟨"u0", none⟩, ⟨"u1", none⟩] [.ok [5], .ok [6]] [0, 1] (by decide),
   fetchFiles_amended.2.1 [⟨"u0", none⟩, ⟨"u1", none⟩] [.ok [5], .ok [6]] [0, 1] 0
     ⟨"u0", none⟩ [5] rfl rfl⟩

/-! Claim C9. -/

theorem getMetaScan_found (ip : String) (pr : String × String) :
    ∀ toks : List HtmlTok,
      getMetaScan ip (some pr) toks =
        if matchingMetas ip toks = [] then .ok pr else .error .notFound := by
  intro toks
  induction toks with
  | nil => simp [getMetaScan, matchingMetas]
  | cons t ts ih =>
    by_cases hstop : stopTok t = true
    · simp [getMetaScan, matchingMetas, hstop]
    · have hstop' : (!stopTok t) = true := by simp [hstop]
      cases hdecl : metaDecl ip t with
      | none =>
        rw [show getMetaScan ip (some pr) (t :: ts) = getMetaScan ip (some pr) ts by
          conv_lhs => unfold getMetaScan
          rw [if_neg hstop, hdecl]]
        rw [ih]
        have : matchingMetas ip (t :: ts) = matchingMetas ip ts := by
          unfold matchingMetas
          rw [List.takeWhile_cons, if_pos hstop', List.filterMap_cons, hdecl]
        rw [this]
      | some pr2 =>
        rw [show getMetaScan ip (some pr) (t :: ts) = .error .notFound by
          conv_lhs => unfold getMetaScan
          rw [if_neg hstop, hdecl]]
        have : matchingMetas ip (t :: ts) = pr2 :: matchingMetas ip ts := by
          unfold matchingMetas
          rw [List.takeWhile_cons, if_pos hstop', List.filterMap_cons, hdecl]
        rw [this, if_neg (by simp)]

theorem getMetaScan_none (ip : String) :
    ∀ toks : List HtmlTok,
      getMetaScan ip none toks =
        match matchingMetas ip toks with
        | [] => .error .notFound
        | [pr] => .ok pr
        | _ :: _ :: _ => .error .notFound := by
  intro toks
  induction toks with
  | nil => simp [getMetaScan, matchingMetas]
  | cons t ts ih =>
    by_cases hstop : stopTok t = true
    · simp [getMetaScan, matchingMetas, hstop]
    · have hstop' : (!stopTok t) = true := by simp [hstop]
      cases hdecl : metaDecl ip t with
      | none =>
        rw [show getMetaScan ip none (t :: ts) = getMetaScan ip none ts by
          conv_lhs => unfold getMetaScan
          rw [if_neg hstop, hdecl]]
        rw [ih]
        have : matchingMetas ip (t :: ts) = matchingMetas ip ts := by
          unfold matchingMetas
          rw [List.takeWhile_cons, if_pos hstop', List.filterMap_cons, hdecl]
        rw [this]
      | some pr2 =>
        rw [show getMetaScan ip none (t :: ts) = getMetaScan ip (some pr2) ts by
          conv_lhs => unfold getMetaScan
          rw [if_neg hstop, hdecl]]
        have hm : matchingMetas ip (t :: ts) = pr2 :: matchingMetas ip ts := by
          unfold matchingMetas
          rw [List.takeWhile_cons, if_pos hstop', List.filterMap_cons, hdecl]
        rw [getMetaScan_found, hm]
        cases matchingMetas ip ts with
        | nil => simp
        | cons a l => simp

/-- C9: getMeta requests the import path's root URL with the go-get
discovery query parameter, uses the HTTPS response when its status is 200,
retries over plain HTTP on connection failure or non-200 status, reports a
transport error on the first path segment when the retry's connection also
fails, and — scanning the fetched page up to `</head>` or `<body>` —
returns PackageNotFound when zero or more than one go-import declarations
match the import path (prefix matching at a slash boundary), while exactly one
match yields that declaration's project root and repo transport URL with no
error. -/
theorem getMeta_spec :
    (∀ ip : String, ∃ base : String,
       metaURI ip = base ++ "?go-get=1" ∧ (base = ip ∨ base = ip ++ "/")) ∧
    (∀ (ip : String) (toks : List HtmlTok) (hr : Except Unit (Nat × List HtmlTok)),
       getMeta ip (.ok (200, toks)) hr = getMetaFromPage ip "https://" toks) ∧
    (∀ (ip : String) (st st2 : Nat) (toks toks2 : List HtmlTok),
       st ≠ 200 →
       getMeta ip (.ok (st, toks)) (.ok (st2, toks2)) =
         getMetaFromPage ip "http://" toks2) ∧
    (∀ (ip : String) (st2 : Nat) (toks2 : List HtmlTok),
       getMeta ip (.error ()) (.ok (st2, toks2)) =
         getMetaFromPage ip "http://" toks2) ∧
    (∀ (ip : String) (st : Nat) (toks : List HtmlTok),
       st ≠ 200 →
       getMeta ip (.ok (st, toks)) (.error ()) =
         .error (.getError (firstSeg ip))) ∧
    (∀ ip : String,
       getMeta ip (.error ()) (.error ()) = .error (.getError (firstSeg ip))) ∧
    (∀ (ip proto : String) (toks : List HtmlTok),
       (matchingMetas ip toks = [] →
          getMetaFromPage ip proto toks = .error .notFound) ∧
       (2 ≤ (matchingMetas ip toks).length →
          getMetaFromPage ip proto toks = .error .notFound) ∧
       (∀ pr : String × String,
          matchingMetas ip toks = [pr] →
          getMetaFromPage ip proto toks =
            .ok ⟨pr.1, pathSplitName pr.1, proto ++ pr.1, pr.2⟩)) := by
  refine ⟨?_, ?_, ?_, ?_, ?_, ?_, ?_⟩
  · intro ip
    by_cases hs : ip.data.contains '/' = true
    · exact ⟨ip, by unfold metaURI; rw [if_pos hs], Or.inl rfl⟩
    · exact ⟨ip ++ "/", by unfold metaURI; rw [if_neg hs], Or.inr rfl⟩
  · intro ip toks hr
    rfl
  · intro ip st st2 toks toks2 hst
    unfold getMeta
    split
    · rename_i heq
      injection heq with hpair
      exact absurd (congrArg Prod.fst hpair) hst
    · rfl
  · intro ip st2 toks2
    rfl
  · intro ip st toks hst
    unfold getMeta
    split
    · rename_i heq
      injection heq with hpair
      exact absurd (congrArg Prod.fst hpair) hst
    · rfl
  · intro ip
    rfl
  · intro ip proto toks
    refine ⟨?_, ?_, ?_⟩
    · intro hm
      unfold getMetaFromPage
      rw [getMetaScan_none, hm]
    · intro hm
      unfold getMetaFromPage
      rw [getMetaScan_none]
      cases hc : matchingMetas ip toks with
      | nil => simp [hc] at hm
      | cons a l =>
        cases l with
        | nil => simp [hc] at hm
        | cons b l2 => rfl
    · intro pr hm
      unfold getMetaFromPage
      rw [getMetaScan_none, hm]

/-- C9 witness: `getMeta_spec` applied to a concrete page holding exactly
one matching declaration, and to a failing fetch pair. -/
theorem getMeta_spec_witness :
    matchingMetas "example.org/pkg" exToks =
      [("example.org", "https://example.org/repo")] ∧
    getMetaFromPage "example.org/pkg" "https://" exToks =
      .ok ⟨"example.org", "example.org", "https://example.org",
           "https://example.org/repo"⟩ ∧
    (404 : Nat) ≠ 200 ∧
    getMeta "example.org/pkg" (.ok (404, exToks)) (.error ()) =
      .error (.getError (firstSeg "example.org/pkg")) :=
  ⟨by decide,
   (getMeta_spec.2.2.2.2.2.2 "example.org/pkg" "https://" exToks).2.2
     ("example.org", "https://example.org/repo") (by decide),
   by decide,
   getMeta_spec.2.2.2.2.1 "example.org/pkg" 404 exToks (by decide)⟩

end Gopkgdoc
